import Mathlib

/-!
# Auenc/simple-rest: the in-memory job repository and the GET handler

A shallow embedding of `repositories/InMemoryJobRepository.go`,
`services/JobService.go` and `endpoints/JobREST.go` (the `Get` handler),
followed by the properties of the CRUD contract.

Conventions of the embedding:

* a Go slice `[]models.Job` is a `List (Job P)`;
* a Go `error` result is `Except String Unit` (`.ok ()` is `nil`,
  `.error msg` is `errors.New(msg)`); a `(models.Job, error)` result is
  `Except String (Job P)`, the zero job that accompanies a non-nil error
  being dropped;
* a method with a pointer receiver returns the receiver after the call
  together with its result;
* `len(r.Jobs)` is a natural number (a Go `int` is 64 bits wide and a slice
  never holds `2^63` elements, so no overflow is modelled).
-/

namespace SimpleRest

/-! ## Data model -/

/-- Modelled from the spec: the declaration of `models.Job` is not among the
sources. The spec gives it a string `ID` plus an opaque payload; the payload
is the type parameter `P`. -/
structure Job (P : Type) where
  ID : String
  payload : P
deriving DecidableEq, Repr

/-- Go's `strconv.Itoa` on a non-negative argument: the decimal string. -/
def Itoa (n : Nat) : String := Nat.repr n

deriving instance DecidableEq for Except

/-- The message of the error returned by `Get`, `Update` and `Delete`. -/
def errJobNotFound : String := "Job not found"

/-- The struct `InMemoryJobRepository`. -/
structure InMemoryJobRepository (P : Type) where
  Jobs : List (Job P)
deriving DecidableEq, Repr

/-- The constructor `NewInMemoryJobRepository`: `make([]models.Job, 0)`. -/
def NewInMemoryJobRepository {P : Type} : InMemoryJobRepository P :=
  { Jobs := [] }

/-! ## Repository operations -/

/-- The `for _, j := range r.Jobs` loop of `Get`, with the `return` after it. -/
def getLoop {P : Type} (id : String) : List (Job P) → Except String (Job P)
  | [] => .error errJobNotFound
  | j :: rest => if j.ID = id then .ok j else getLoop id rest

/-- The method `Get`. -/
def InMemoryJobRepository.Get {P : Type} (r : InMemoryJobRepository P) (id : String) :
    InMemoryJobRepository P × Except String (Job P) :=
  (r, getLoop id r.Jobs)

/-- The method `GetAll`. -/
def InMemoryJobRepository.GetAll {P : Type} (r : InMemoryJobRepository P) :
    InMemoryJobRepository P × Except String (List (Job P)) :=
  (r, .ok r.Jobs)

/-- The method `Create`: `job.ID = strconv.Itoa(len(r.Jobs))`, then append. -/
def InMemoryJobRepository.Create {P : Type} (r : InMemoryJobRepository P) (job : Job P) :
    InMemoryJobRepository P × Except String Unit :=
  let job := { job with ID := Itoa r.Jobs.length }
  ({ Jobs := r.Jobs ++ [job] }, .ok ())

/-- The `for i, j := range r.Jobs` loop of `Update`, with the `return` after
it. `jobs` is the slice, `i` the index of the iteration and the last argument
the elements still to visit. The body ends in an unconditional `return nil`,
so no second iteration is ever started. -/
def updateLoop {P : Type} (id : String) (job : Job P) (jobs : List (Job P)) (i : Nat) :
    List (Job P) → List (Job P) × Except String Unit
  | [] => (jobs, .error errJobNotFound)
  | j :: _ =>
    let jobs := if j.ID = id then jobs.set i { job with ID := id } else jobs
    (jobs, .ok ())

/-- The method `Update`. -/
def InMemoryJobRepository.Update {P : Type} (r : InMemoryJobRepository P) (id : String)
    (job : Job P) : InMemoryJobRepository P × Except String Unit :=
  let res := updateLoop id job r.Jobs 0 r.Jobs
  ({ Jobs := res.1 }, res.2)

/-- The `for i, j := range r.Jobs` loop of `Delete`, with the `return` after
it; `append(r.Jobs[:i], r.Jobs[i+1:]...)` is `take i ++ drop (i+1)`. -/
def deleteLoop {P : Type} (id : String) (jobs : List (Job P)) :
    Nat → List (Job P) → List (Job P) × Except String Unit
  | _, [] => (jobs, .error errJobNotFound)
  | i, j :: rest =>
    if j.ID = id then (jobs.take i ++ jobs.drop (i + 1), .ok ())
    else deleteLoop id jobs (i + 1) rest

/-- The method `Delete`. -/
def InMemoryJobRepository.Delete {P : Type} (r : InMemoryJobRepository P) (id : String) :
    InMemoryJobRepository P × Except String Unit :=
  let res := deleteLoop id r.Jobs 0 r.Jobs
  ({ Jobs := res.1 }, res.2)

/-! ## Service layer -/

/-- The struct `JobService`; its `JobRepo` is the in-memory repository that
`main` wires in. -/
structure JobService (P : Type) where
  JobRepo : InMemoryJobRepository P
deriving DecidableEq, Repr

/-- The service method `Get`: `return s.JobRepo.Get(id)`. -/
def JobService.Get {P : Type} (s : JobService P) (id : String) :
    JobService P × Except String (Job P) :=
  let res := s.JobRepo.Get id
  ({ JobRepo := res.1 }, res.2)

/-! ## HTTP handler -/

/-- What a handler hands to `json.NewEncoder(w).Encode`: nothing, the map
`map[string]string{"error": msg}`, or a job. -/
inductive Body (P : Type) where
  | empty : Body P
  | errorMap (msg : String) : Body P
  | job (j : Job P) : Body P
deriving DecidableEq, Repr

/-- The state of the `http.ResponseWriter` once the handler has returned. -/
structure Response (P : Type) where
  status : Nat
  body : Body P
deriving DecidableEq, Repr

/-- The constant `http.StatusOK`. -/
def StatusOK : Nat := 200
/-- The constant `http.StatusBadRequest`. -/
def StatusBadRequest : Nat := 400
/-- The constant `http.StatusNotFound`. -/
def StatusNotFound : Nat := 404

/-- The struct `JobREST`. -/
structure JobREST (P : Type) where
  JobService : JobService P
deriving DecidableEq, Repr

/-- The handler `JobREST.Get`; `id` is `mux.Vars(r)["id"]`. -/
def JobREST.Get {P : Type} (j : JobREST P) (id : String) : JobREST P × Response P :=
  if id = "" then
    (j, { status := StatusBadRequest, body := .errorMap "no id given" })
  else
    let res := j.JobService.Get id
    let j := { j with JobService := res.1 }
    match res.2 with
    | .error err => (j, { status := StatusNotFound, body := .errorMap err })
    | .ok job => (j, { status := StatusOK, body := .job job })

/-! ## Sequences of mutating calls -/

/-- One mutating call on the repository. -/
inductive Op (P : Type) where
  | create (job : Job P) : Op P
  | update (id : String) (job : Job P) : Op P
  | delete (id : String) : Op P
deriving DecidableEq, Repr

/-- Whether the call is a `Create`. -/
def Op.isCreate {P : Type} : Op P → Bool
  | .create _ => true
  | _ => false

/-- Whether the call is a `Delete`. -/
def Op.isDelete {P : Type} : Op P → Bool
  | .delete _ => true
  | _ => false

/-- The repository after one call. -/
def step {P : Type} (r : InMemoryJobRepository P) : Op P → InMemoryJobRepository P
  | .create job => (r.Create job).1
  | .update id job => (r.Update id job).1
  | .delete id => (r.Delete id).1

/-- The repository after a sequence of calls, first call first. -/
def run {P : Type} (ops : List (Op P)) (r : InMemoryJobRepository P) :
    InMemoryJobRepository P :=
  ops.foldl step r

/-- The repository after `Create` on each job of a list, in order. -/
def createAll {P : Type} (js : List (Job P)) (r : InMemoryJobRepository P) :
    InMemoryJobRepository P :=
  js.foldl (fun r j => (r.Create j).1) r

/-- The IDs of the stored jobs, in storage order. -/
def ids {P : Type} (r : InMemoryJobRepository P) : List String :=
  r.Jobs.map Job.ID

/-- Decimal digits of a number as characters, most significant first. -/
def decDigits (n : Nat) : List Char :=
  if n = 0 then ['0'] else ((Nat.digits 10 n).reverse.map Nat.digitChar)

/-- Decimal digits of a number, least significant first, with `[0]` for zero. -/
def digitsZ (n : Nat) : List Nat := if n = 0 then [0] else Nat.digits 10 n

/-- The function that `Create` applies to the job at position `p.1`. -/
def withIndexID {P : Type} (p : Nat × Job P) : Job P :=
  { p.2 with ID := Itoa p.1 }

/-! ## Decimal strings are injective -/

theorem toDigitsCore_eq (fuel : Nat) : ∀ (n : Nat) (ds : List Char), n < fuel →
    Nat.toDigitsCore 10 fuel n ds = decDigits n ++ ds := by
  induction fuel with
  | zero => intro n ds h; omega
  | succ f ih =>
    intro n ds h
    unfold Nat.toDigitsCore
    by_cases h0 : n / 10 = 0
    · have hlt : n < 10 := by omega
      simp only [h0, if_true]
      unfold decDigits
      by_cases hn : n = 0
      · subst hn; simp [Nat.digitChar]
      · have hpos : 0 < n := Nat.pos_of_ne_zero hn
        rw [Nat.digits_def' (by norm_num) hpos]
        simp [hn, h0, Nat.mod_eq_of_lt hlt]
    · have hpos : 0 < n := by
        rcases Nat.eq_zero_or_pos n with h | h
        · subst h; simp at h0
        · exact h
      have hn : n ≠ 0 := by omega
      simp only [h0, if_false]
      rw [ih (n / 10) _ (by omega)]
      unfold decDigits
      rw [if_neg h0, if_neg hn, Nat.digits_def' (by norm_num) hpos]
      simp

theorem digitChar_inj {a b : Nat} (ha : a < 10) (hb : b < 10)
    (h : Nat.digitChar a = Nat.digitChar b) : a = b := by
  have key : ∀ x y : Fin 10, Nat.digitChar x.val = Nat.digitChar y.val → x = y := by decide
  have := key ⟨a, ha⟩ ⟨b, hb⟩ h
  exact congrArg Fin.val this

theorem map_digitChar_inj : ∀ (l₁ l₂ : List Nat), (∀ x ∈ l₁, x < 10) → (∀ x ∈ l₂, x < 10) →
    l₁.map Nat.digitChar = l₂.map Nat.digitChar → l₁ = l₂
  | [], [], _, _, _ => rfl
  | [], _ :: _, _, _, h => by simp at h
  | _ :: _, [], _, _, h => by simp at h
  | a :: l₁, b :: l₂, h₁, h₂, h => by
    simp only [List.map_cons, List.cons.injEq] at h
    have hab := digitChar_inj (h₁ a (by simp)) (h₂ b (by simp)) h.1
    have ht := map_digitChar_inj l₁ l₂ (fun x hx => h₁ x (by simp [hx]))
      (fun x hx => h₂ x (by simp [hx])) h.2
    rw [hab, ht]

theorem digitsZ_lt (n : Nat) : ∀ x ∈ digitsZ n, x < 10 := by
  intro x hx
  unfold digitsZ at hx
  split at hx
  · simp at hx; omega
  · exact Nat.digits_lt_base (by norm_num) hx

theorem ofDigits_digitsZ (n : Nat) : Nat.ofDigits 10 (digitsZ n) = n := by
  unfold digitsZ
  split
  · next h => subst h; simp [Nat.ofDigits]
  · exact Nat.ofDigits_digits 10 n

theorem decDigits_eq (n : Nat) : decDigits n = (digitsZ n).reverse.map Nat.digitChar := by
  unfold decDigits digitsZ; split <;> simp [Nat.digitChar]

theorem decDigits_inj {a b : Nat} (h : decDigits a = decDigits b) : a = b := by
  rw [decDigits_eq, decDigits_eq] at h
  have h' := map_digitChar_inj _ _ (fun x hx => digitsZ_lt a x (by simpa using hx))
    (fun x hx => digitsZ_lt b x (by simpa using hx)) h
  have h'' : digitsZ a = digitsZ b := List.reverse_injective h'
  rw [← ofDigits_digitsZ a, ← ofDigits_digitsZ b, h'']

theorem Itoa_injective : Function.Injective Itoa := by
  intro a b h
  unfold Itoa Nat.repr Nat.toDigits at h
  rw [toDigitsCore_eq _ _ _ (Nat.lt_succ_self a), toDigitsCore_eq _ _ _ (Nat.lt_succ_self b)] at h
  simp only [List.append_nil, List.asString] at h
  exact decDigits_inj (congrArg String.data h)

/-! ## The scanning loops -/

theorem getLoop_first {P : Type} (id : String) (j : Job P) (post : List (Job P)) :
    ∀ pre : List (Job P), (∀ x ∈ pre, x.ID ≠ id) → j.ID = id →
      getLoop id (pre ++ j :: post) = .ok j
  | [], _, hj => by simp [getLoop, hj]
  | a :: pre, hpre, hj => by
    have ha : a.ID ≠ id := hpre a (by simp)
    simp only [List.cons_append, getLoop, if_neg ha]
    exact getLoop_first id j post pre (fun x hx => hpre x (by simp [hx])) hj

theorem getLoop_none {P : Type} (id : String) :
    ∀ l : List (Job P), (∀ x ∈ l, x.ID ≠ id) → getLoop id l = .error errJobNotFound
  | [], _ => rfl
  | a :: l, h => by
    have ha : a.ID ≠ id := h a (by simp)
    simp only [getLoop, if_neg ha]
    exact getLoop_none id l (fun x hx => h x (by simp [hx]))

/-- A list with an entry of the given ID splits at the first such entry. -/
theorem exists_first {P : Type} (id : String) :
    ∀ l : List (Job P), (∃ x ∈ l, x.ID = id) →
      ∃ pre j post, l = pre ++ j :: post ∧ (∀ x ∈ pre, x.ID ≠ id) ∧ j.ID = id
  | [], h => by simp at h
  | a :: l, h => by
    by_cases ha : a.ID = id
    · exact ⟨[], a, l, rfl, by simp, ha⟩
    · have h' : ∃ x ∈ l, x.ID = id := by
        obtain ⟨x, hx, hxid⟩ := h
        rcases List.mem_cons.1 hx with rfl | hx
        · exact absurd hxid ha
        · exact ⟨x, hx, hxid⟩
      obtain ⟨pre, j, post, hl, hpre, hj⟩ := exists_first id l h'
      refine ⟨a :: pre, j, post, by simp [hl], ?_, hj⟩
      intro x hx
      rcases List.mem_cons.1 hx with rfl | hx
      · exact ha
      · exact hpre x hx

theorem getLoop_error_iff {P : Type} (id : String) (l : List (Job P)) :
    getLoop id l = .error errJobNotFound ↔ ∀ x ∈ l, x.ID ≠ id := by
  constructor
  · intro h x hx hxid
    obtain ⟨pre, j, post, hl, hpre, hj⟩ := exists_first id l ⟨x, hx, hxid⟩
    rw [hl, getLoop_first id j post pre hpre hj] at h
    cases h
  · exact getLoop_none id l

theorem deleteLoop_first {P : Type} (id : String) (jobs : List (Job P)) (j : Job P)
    (post : List (Job P)) :
    ∀ (pre done : List (Job P)), jobs = done ++ pre ++ j :: post →
      (∀ x ∈ pre, x.ID ≠ id) → j.ID = id →
      deleteLoop id jobs done.length (pre ++ j :: post) = (done ++ pre ++ post, .ok ())
  | [], done, hjobs, _, hj => by
    simp only [List.nil_append, deleteLoop, if_pos hj, List.append_nil] at hjobs ⊢
    subst hjobs
    simp
  | a :: pre, done, hjobs, hpre, hj => by
    have ha : a.ID ≠ id := hpre a (by simp)
    simp only [List.cons_append, deleteLoop, if_neg ha]
    have := deleteLoop_first id jobs j post pre (done ++ [a]) (by simp [hjobs])
      (fun x hx => hpre x (by simp [hx])) hj
    simpa using this

theorem deleteLoop_none {P : Type} (id : String) (jobs : List (Job P)) :
    ∀ (i : Nat) (l : List (Job P)), (∀ x ∈ l, x.ID ≠ id) →
      deleteLoop id jobs i l = (jobs, .error errJobNotFound)
  | _, [], _ => rfl
  | i, a :: l, h => by
    have ha : a.ID ≠ id := h a (by simp)
    simp only [deleteLoop, if_neg ha]
    exact deleteLoop_none id jobs (i + 1) l (fun x hx => h x (by simp [hx]))

theorem Delete_first {P : Type} (r : InMemoryJobRepository P) (id : String)
    (pre : List (Job P)) (j : Job P) (post : List (Job P))
    (hr : r.Jobs = pre ++ j :: post) (hpre : ∀ x ∈ pre, x.ID ≠ id) (hj : j.ID = id) :
    r.Delete id = ({ Jobs := pre ++ post }, .ok ()) := by
  have := deleteLoop_first id r.Jobs j post pre [] (by simpa using hr) hpre hj
  simp only [List.length_nil, List.nil_append] at this
  unfold InMemoryJobRepository.Delete
  simp only
  rw [hr] at this ⊢
  rw [this]

theorem Delete_none {P : Type} (r : InMemoryJobRepository P) (id : String)
    (h : ∀ x ∈ r.Jobs, x.ID ≠ id) : r.Delete id = (r, .error errJobNotFound) := by
  unfold InMemoryJobRepository.Delete
  simp only [deleteLoop_none id r.Jobs 0 r.Jobs h]

/-! ## Effect of each call on the stored sequence and its IDs -/

theorem Update_nil {P : Type} (r : InMemoryJobRepository P) (id : String) (job : Job P)
    (hr : r.Jobs = []) : r.Update id job = (r, .error errJobNotFound) := by
  cases r with
  | mk jobs =>
    simp only at hr
    subst hr
    rfl

theorem Update_cons {P : Type} (r : InMemoryJobRepository P) (id : String) (job : Job P)
    (j : Job P) (rest : List (Job P)) (hr : r.Jobs = j :: rest) :
    r.Update id job =
      ({ Jobs := if j.ID = id then { job with ID := id } :: rest else j :: rest }, .ok ()) := by
  cases r with
  | mk jobs =>
    simp only at hr
    subst hr
    unfold InMemoryJobRepository.Update updateLoop
    by_cases h : j.ID = id <;> simp [h]

theorem ids_Update {P : Type} (r : InMemoryJobRepository P) (id : String) (job : Job P) :
    ids (r.Update id job).1 = ids r := by
  cases hr : r.Jobs with
  | nil => rw [Update_nil r id job hr]
  | cons j rest =>
    rw [Update_cons r id job j rest hr]
    unfold ids
    rw [hr]
    by_cases h : j.ID = id <;> simp [h]

theorem length_Update {P : Type} (r : InMemoryJobRepository P) (id : String) (job : Job P) :
    (r.Update id job).1.Jobs.length = r.Jobs.length := by
  have := congrArg List.length (ids_Update r id job)
  simpa [ids] using this

theorem ids_Delete_sublist {P : Type} (r : InMemoryJobRepository P) (id : String) :
    (ids (r.Delete id).1).Sublist (ids r) := by
  by_cases h : ∃ x ∈ r.Jobs, x.ID = id
  · obtain ⟨pre, j, post, hl, hpre, hj⟩ := exists_first id r.Jobs h
    rw [Delete_first r id pre j post hl hpre hj]
    unfold ids
    rw [hl]
    simp only [List.map_append, List.map_cons]
    exact List.Sublist.append (List.Sublist.refl _) (List.sublist_cons_self _ _)
  · have h' : ∀ x ∈ r.Jobs, x.ID ≠ id := fun x hx hxid => h ⟨x, hx, hxid⟩
    rw [Delete_none r id h']

theorem ids_Create {P : Type} (r : InMemoryJobRepository P) (job : Job P) :
    ids (r.Create job).1 = ids r ++ [Itoa r.Jobs.length] := by
  simp [ids, InMemoryJobRepository.Create]

/-- Without `Delete`, the stored IDs are the decimal strings of the positions. -/
theorem ids_run_of_no_delete {P : Type} :
    ∀ (ops : List (Op P)) (r : InMemoryJobRepository P),
      (∀ o ∈ ops, o.isDelete = false) →
      ids r = (List.range r.Jobs.length).map Itoa →
      ids (run ops r) = (List.range (run ops r).Jobs.length).map Itoa
  | [], _, _, hr => hr
  | o :: ops, r, hops, hr => by
    have hrest : ∀ o ∈ ops, o.isDelete = false := fun x hx => hops x (by simp [hx])
    have ho := hops o (by simp)
    show ids (run ops (step r o)) = _
    apply ids_run_of_no_delete ops (step r o) hrest
    cases o with
    | create job =>
      simp only [step, ids_Create, hr]
      simp [InMemoryJobRepository.Create, List.range_succ]
    | update id job =>
      simp only [step, ids_Update, length_Update, hr]
    | delete id => simp [Op.isDelete] at ho

/-- Without `Create`, distinct stored IDs stay distinct. -/
theorem nodup_run_of_no_create {P : Type} :
    ∀ (ops : List (Op P)) (r : InMemoryJobRepository P),
      (∀ o ∈ ops, o.isCreate = false) → (ids r).Nodup → (ids (run ops r)).Nodup
  | [], _, _, hr => hr
  | o :: ops, r, hops, hr => by
    have hrest : ∀ o ∈ ops, o.isCreate = false := fun x hx => hops x (by simp [hx])
    have ho := hops o (by simp)
    show (ids (run ops (step r o))).Nodup
    apply nodup_run_of_no_create ops (step r o) hrest
    cases o with
    | create job => simp [Op.isCreate] at ho
    | update id job => simpa only [step, ids_Update] using hr
    | delete id => exact List.Nodup.sublist (ids_Delete_sublist r id) hr

theorem run_append {P : Type} (ops₁ ops₂ : List (Op P)) (r : InMemoryJobRepository P) :
    run (ops₁ ++ ops₂) r = run ops₂ (run ops₁ r) := by
  simp [run, List.foldl_append]

theorem createAll_Jobs {P : Type} :
    ∀ (js : List (Job P)) (r : InMemoryJobRepository P),
      (createAll js r).Jobs = r.Jobs ++ (js.enumFrom r.Jobs.length).map withIndexID
  | [], r => by simp [createAll]
  | j :: js, r => by
    show (createAll js (r.Create j).1).Jobs = _
    rw [createAll_Jobs js (r.Create j).1]
    simp [InMemoryJobRepository.Create, withIndexID, List.enumFrom]

/-! ## The repository contract -/

/-- C1, as stated, fails: after `Create`, `Create`, `Delete("0")`, `Create`
the store holds two jobs that both have the ID `"1"`. -/
theorem ids_duplicate_after_delete_then_create :
    ids (run [.create ⟨"", "a"⟩, .create ⟨"", "b"⟩, .delete "0", .create ⟨"", "c"⟩]
        (NewInMemoryJobRepository : InMemoryJobRepository String)) = ["1", "1"] ∧
    ¬ (ids (run [.create ⟨"", "a"⟩, .create ⟨"", "b"⟩, .delete "0", .create ⟨"", "c"⟩]
        (NewInMemoryJobRepository : InMemoryJobRepository String))).Nodup := by
  decide

/-- C1, amended: in every store state reached from the empty store by a finite
sequence of `Create`, `Update` and `Delete` calls in which no `Create` comes
after a `Delete`, no two stored jobs have the same ID. -/
theorem ids_nodup_of_no_create_after_delete {P : Type} (before after : List (Op P))
    (hbefore : ∀ o ∈ before, o.isDelete = false)
    (hafter : ∀ o ∈ after, o.isCreate = false) :
    (ids (run (before ++ after) NewInMemoryJobRepository)).Nodup := by
  rw [run_append]
  apply nodup_run_of_no_create after _ hafter
  rw [ids_run_of_no_delete before NewInMemoryJobRepository hbefore rfl]
  exact List.Nodup.map Itoa_injective (List.nodup_range _)

theorem ids_nodup_of_no_create_after_delete_witness :
    (∀ o ∈ [Op.create ⟨"", "a"⟩, .create ⟨"9", "b"⟩, .update "0" ⟨"5", "c"⟩, .create ⟨"", "d"⟩],
        o.isDelete = false) ∧
    (∀ o ∈ [Op.delete "1", .update "0" ⟨"7", "e"⟩, .delete "4"], o.isCreate = false) ∧
    (ids (run ([Op.create ⟨"", "a"⟩, .create ⟨"9", "b"⟩, .update "0" ⟨"5", "c"⟩,
        .create ⟨"", "d"⟩] ++ [Op.delete "1", .update "0" ⟨"7", "e"⟩, .delete "4"])
        (NewInMemoryJobRepository : InMemoryJobRepository String))).Nodup :=
  ⟨by decide, by decide, ids_nodup_of_no_create_after_delete _ _ (by decide) (by decide)⟩

/-- C2: from the empty store, after `Create` on each job of a list and nothing
else, `GetAll` succeeds with exactly as many jobs as were created, in creation
order, the `i`-th being the `i`-th input with its ID replaced by the decimal
string of `i`; the assigned IDs are pairwise distinct. -/
theorem GetAll_after_creates {P : Type} (js : List (Job P)) :
    (createAll js NewInMemoryJobRepository).GetAll.2 = .ok (js.enum.map withIndexID) ∧
    (js.enum.map withIndexID).length = js.length ∧
    (∀ (i : Nat) (h : i < js.length),
      (js.enum.map withIndexID)[i]? = some { ID := Itoa i, payload := js[i].payload }) ∧
    ((js.enum.map withIndexID).map Job.ID).Nodup := by
  refine ⟨?_, by simp, ?_, ?_⟩
  · simp [InMemoryJobRepository.GetAll, createAll_Jobs, NewInMemoryJobRepository, List.enum]
  · intro i h
    simp [List.enum, withIndexID, List.getElem?_eq_getElem h]
  · have hids : (js.enum.map withIndexID).map Job.ID = (List.range js.length).map Itoa := by
      have hfst : (js.enum.map withIndexID).map Job.ID = (js.enum.map Prod.fst).map Itoa := by
        rw [List.map_map, List.map_map]
        rfl
      rw [hfst, List.enum_map_fst]
    rw [hids]
    exact List.Nodup.map Itoa_injective (List.nodup_range _)

/-- C3, as stated, fails: in the store reached by `Create`, `Create`,
`Delete("0")`, `Create` two jobs have the ID `"1"`; `Delete("1")` removes the
first and the following `Get("1")` succeeds with the second. -/
theorem Get_after_Delete_succeeds_on_duplicate :
    (((run [.create ⟨"", "a"⟩, .create ⟨"", "b"⟩, .delete "0", .create ⟨"", "c"⟩]
        (NewInMemoryJobRepository : InMemoryJobRepository String)).Delete "1").1.Get "1").2
      = .ok ⟨"1", "c"⟩ ∧
    (((run [.create ⟨"", "a"⟩, .create ⟨"", "b"⟩, .delete "0", .create ⟨"", "c"⟩]
        (NewInMemoryJobRepository : InMemoryJobRepository String)).Delete "1").1.Get "1").2
      ≠ .error errJobNotFound := by
  decide

/-- C3, amended: for every store state and every id that at most one stored
job carries (in particular whenever the stored IDs are pairwise distinct),
after `Delete(id)` a following `Get(id)` fails with the not-found error. -/
theorem Get_after_Delete_not_found {P : Type} (r : InMemoryJobRepository P) (id : String)
    (h : (ids r).count id ≤ 1) :
    ((r.Delete id).1.Get id).2 = .error errJobNotFound := by
  by_cases hex : ∃ x ∈ r.Jobs, x.ID = id
  · obtain ⟨pre, j, post, hl, hpre, hj⟩ := exists_first id r.Jobs hex
    rw [Delete_first r id pre j post hl hpre hj]
    show getLoop id (pre ++ post) = _
    apply getLoop_none
    have hpost : ∀ x ∈ post, x.ID ≠ id := by
      intro x hx hxid
      have hc : 0 < (post.map Job.ID).count id :=
        List.count_pos_iff.2 (List.mem_map.2 ⟨x, hx, hxid⟩)
      unfold ids at h
      rw [hl] at h
      simp only [List.map_append, List.map_cons, List.count_append, List.count_cons, hj,
        beq_self_eq_true, if_true] at h
      omega
    intro x hx
    rcases List.mem_append.1 hx with hx | hx
    · exact hpre x hx
    · exact hpost x hx
  · have h' : ∀ x ∈ r.Jobs, x.ID ≠ id := fun x hx hxid => hex ⟨x, hx, hxid⟩
    rw [Delete_none r id h']
    exact getLoop_none id r.Jobs h'

theorem Get_after_Delete_not_found_witness :
    (ids (⟨[⟨"0", "a"⟩, ⟨"1", "b"⟩, ⟨"2", "c"⟩]⟩ : InMemoryJobRepository String)).count "1" ≤ 1 ∧
    (((⟨[⟨"0", "a"⟩, ⟨"1", "b"⟩, ⟨"2", "c"⟩]⟩ : InMemoryJobRepository String).Delete "1").1.Get
        "1").2 = .error errJobNotFound :=
  ⟨by decide, Get_after_Delete_not_found _ _ (by decide)⟩

/-- C4 at a failing input: with jobs `"0"` and `"1"` stored, `Update("1", job)`
returns success and leaves the store as it was; the slot of the job with ID
`"1"` does not hold the new job. -/
theorem Update_of_second_entry_changes_nothing :
    (⟨[⟨"0", "a"⟩, ⟨"1", "b"⟩]⟩ : InMemoryJobRepository String).Update "1" ⟨"", "c"⟩
      = (⟨[⟨"0", "a"⟩, ⟨"1", "b"⟩]⟩, .ok ()) ∧
    ((⟨[⟨"0", "a"⟩, ⟨"1", "b"⟩]⟩ : InMemoryJobRepository String).Update "1" ⟨"", "c"⟩).1.Jobs[1]?
      ≠ some ⟨"1", "c"⟩ := by
  decide

/-- C5 at a failing input: with only the job `"0"` stored, `Update("7", job)`
returns success, not the not-found error. -/
theorem Update_of_absent_id_succeeds :
    (∀ x ∈ (⟨[⟨"0", "a"⟩]⟩ : InMemoryJobRepository String).Jobs, x.ID ≠ "7") ∧
    (⟨[⟨"0", "a"⟩]⟩ : InMemoryJobRepository String).Update "7" ⟨"", "c"⟩
      = (⟨[⟨"0", "a"⟩]⟩, .ok ()) ∧
    ((⟨[⟨"0", "a"⟩]⟩ : InMemoryJobRepository String).Update "7" ⟨"", "c"⟩).2
      ≠ .error errJobNotFound := by
  decide

/-- C6: `Get(id)` succeeds with the first stored entry whose ID is `id` when
there is one, fails with the not-found error exactly when no stored entry has
that ID (so always on the empty store), and never changes the store. -/
theorem Get_first_or_not_found {P : Type} (r : InMemoryJobRepository P) (id : String) :
    (∀ (pre : List (Job P)) (j : Job P) (post : List (Job P)),
      r.Jobs = pre ++ j :: post → (∀ x ∈ pre, x.ID ≠ id) → j.ID = id →
      (r.Get id).2 = .ok j) ∧
    ((∃ x ∈ r.Jobs, x.ID = id) →
      ∃ (pre : List (Job P)) (j : Job P) (post : List (Job P)),
        r.Jobs = pre ++ j :: post ∧ (∀ x ∈ pre, x.ID ≠ id) ∧ j.ID = id ∧
        (r.Get id).2 = .ok j) ∧
    ((r.Get id).2 = .error errJobNotFound ↔ ∀ x ∈ r.Jobs, x.ID ≠ id) ∧
    ((∀ x ∈ r.Jobs, x.ID ≠ id) ↔ ∃ msg, (r.Get id).2 = .error msg) ∧
    (r.Jobs = [] → (r.Get id).2 = .error errJobNotFound) ∧
    (r.Get id).1 = r := by
  have hfirst : ∀ (pre : List (Job P)) (j : Job P) (post : List (Job P)),
      r.Jobs = pre ++ j :: post → (∀ x ∈ pre, x.ID ≠ id) → j.ID = id →
      (r.Get id).2 = .ok j := by
    intro pre j post hl hpre hj
    show getLoop id r.Jobs = _
    rw [hl]
    exact getLoop_first id j post pre hpre hj
  refine ⟨hfirst, ?_, getLoop_error_iff id r.Jobs, ?_, ?_, rfl⟩
  · intro hex
    obtain ⟨pre, j, post, hl, hpre, hj⟩ := exists_first id r.Jobs hex
    exact ⟨pre, j, post, hl, hpre, hj, hfirst pre j post hl hpre hj⟩
  · constructor
    · intro h
      exact ⟨errJobNotFound, getLoop_none id r.Jobs h⟩
    · rintro ⟨msg, hmsg⟩ x hx hxid
      obtain ⟨pre, j, post, hl, hpre, hj⟩ := exists_first id r.Jobs ⟨x, hx, hxid⟩
      rw [hfirst pre j post hl hpre hj] at hmsg
      cases hmsg
  · intro hnil
    show getLoop id r.Jobs = _
    rw [hnil]
    rfl

theorem Get_first_or_not_found_witness :
    ((⟨[⟨"0", "a"⟩, ⟨"1", "b"⟩, ⟨"1", "c"⟩]⟩ : InMemoryJobRepository String).Get "1").2
      = .ok ⟨"1", "b"⟩ ∧
    ((⟨[⟨"0", "a"⟩, ⟨"1", "b"⟩, ⟨"1", "c"⟩]⟩ : InMemoryJobRepository String).Get "2").2
      = .error errJobNotFound :=
  ⟨(Get_first_or_not_found ⟨[⟨"0", "a"⟩, ⟨"1", "b"⟩, ⟨"1", "c"⟩]⟩ "1").1
      [⟨"0", "a"⟩] ⟨"1", "b"⟩ [⟨"1", "c"⟩] rfl (by decide) rfl,
    (Get_first_or_not_found ⟨[⟨"0", "a"⟩, ⟨"1", "b"⟩, ⟨"1", "c"⟩]⟩ "2").2.2.1.2 (by decide)⟩

/-- C7: when some stored entry has ID `id`, `Delete(id)` succeeds and the new
store is the old sequence without its first such entry: the entries before it
keep their place, the entries after it move one slot to the left, the length
drops by one. When no stored entry has that ID, `Delete(id)` fails with the
not-found error and the store is unchanged. -/
theorem Delete_first_or_not_found {P : Type} (r : InMemoryJobRepository P) (id : String) :
    (∀ (pre : List (Job P)) (j : Job P) (post : List (Job P)),
      r.Jobs = pre ++ j :: post → (∀ x ∈ pre, x.ID ≠ id) → j.ID = id →
      r.Delete id = ({ Jobs := pre ++ post }, .ok ()) ∧
      (r.Delete id).1.Jobs.length + 1 = r.Jobs.length ∧
      (∀ k, k < pre.length → (r.Delete id).1.Jobs[k]? = r.Jobs[k]?) ∧
      (∀ k, pre.length ≤ k → (r.Delete id).1.Jobs[k]? = r.Jobs[k + 1]?)) ∧
    ((∃ x ∈ r.Jobs, x.ID = id) →
      ∃ (pre : List (Job P)) (j : Job P) (post : List (Job P)),
        r.Jobs = pre ++ j :: post ∧ (∀ x ∈ pre, x.ID ≠ id) ∧ j.ID = id ∧
        r.Delete id = ({ Jobs := pre ++ post }, .ok ())) ∧
    ((∀ x ∈ r.Jobs, x.ID ≠ id) → r.Delete id = (r, .error errJobNotFound)) := by
  refine ⟨?_, ?_, Delete_none r id⟩
  · intro pre j post hl hpre hj
    have hd := Delete_first r id pre j post hl hpre hj
    refine ⟨hd, ?_, ?_, ?_⟩
    · rw [hd, hl]
      simp only [List.length_append, List.length_cons]
      omega
    · intro k hk
      rw [hd, hl]
      simp only
      rw [List.getElem?_append_left hk, List.getElem?_append_left hk]
    · intro k hk
      rw [hd, hl]
      simp only
      rw [List.getElem?_append_right hk, List.getElem?_append_right (by omega)]
      have hidx : k + 1 - pre.length = (k - pre.length) + 1 := by omega
      rw [hidx, List.getElem?_cons_succ]
  · intro hex
    obtain ⟨pre, j, post, hl, hpre, hj⟩ := exists_first id r.Jobs hex
    exact ⟨pre, j, post, hl, hpre, hj, Delete_first r id pre j post hl hpre hj⟩

theorem Delete_first_or_not_found_witness :
    (⟨[⟨"0", "a"⟩, ⟨"1", "b"⟩, ⟨"1", "c"⟩, ⟨"3", "d"⟩]⟩ : InMemoryJobRepository String).Delete "1"
      = (⟨[⟨"0", "a"⟩, ⟨"1", "c"⟩, ⟨"3", "d"⟩]⟩, .ok ()) ∧
    (⟨[⟨"0", "a"⟩, ⟨"1", "b"⟩, ⟨"1", "c"⟩, ⟨"3", "d"⟩]⟩ : InMemoryJobRepository String).Delete "2"
      = (⟨[⟨"0", "a"⟩, ⟨"1", "b"⟩, ⟨"1", "c"⟩, ⟨"3", "d"⟩]⟩, .error errJobNotFound) :=
  ⟨((Delete_first_or_not_found ⟨[⟨"0", "a"⟩, ⟨"1", "b"⟩, ⟨"1", "c"⟩, ⟨"3", "d"⟩]⟩ "1").1
      [⟨"0", "a"⟩] ⟨"1", "b"⟩ [⟨"1", "c"⟩, ⟨"3", "d"⟩] rfl (by decide) rfl).1,
    (Delete_first_or_not_found ⟨[⟨"0", "a"⟩, ⟨"1", "b"⟩, ⟨"1", "c"⟩, ⟨"3", "d"⟩]⟩ "2").2.2
      (by decide)⟩

/-- C8: on a store of length `n`, `Create(job)` never fails and the new store
is the old sequence followed by one entry, `job` with its ID replaced by the
decimal string of `n`; the ID that `job` carried has no effect. -/
theorem Create_appends_with_length_ID {P : Type} (r : InMemoryJobRepository P) (job : Job P) :
    (r.Create job).2 = .ok () ∧
    (r.Create job).1.Jobs = r.Jobs ++ [{ ID := Itoa r.Jobs.length, payload := job.payload }] ∧
    (r.Create job).1.Jobs.length = r.Jobs.length + 1 ∧
    (r.Create job).1.Jobs.take r.Jobs.length = r.Jobs ∧
    (r.Create job).1.Jobs[r.Jobs.length]? =
      some { ID := Itoa r.Jobs.length, payload := job.payload } ∧
    (∀ id : String, r.Create { job with ID := id } = r.Create job) := by
  refine ⟨rfl, rfl, ?_, ?_, ?_, fun _ => rfl⟩
  · simp [InMemoryJobRepository.Create]
  · simp [InMemoryJobRepository.Create]
  · simp [InMemoryJobRepository.Create]

/-- C9: the `Get` handler answers 400 with the error body `no id given` when
the path id is empty, 404 with the backend's message as error body when the id
is non-empty and no stored job has it, and 200 with the first matching job
otherwise; the store behind the handler is unchanged in all three cases. -/
theorem handler_Get_responses {P : Type} (h : JobREST P) (id : String) :
    (id = "" → h.Get id = (h, { status := 400, body := .errorMap "no id given" })) ∧
    (id ≠ "" → (∀ x ∈ h.JobService.JobRepo.Jobs, x.ID ≠ id) →
      h.Get id = (h, { status := 404, body := .errorMap "Job not found" }) ∧
      (h.JobService.JobRepo.Get id).2 = .error "Job not found") ∧
    (id ≠ "" → ∀ (pre : List (Job P)) (j : Job P) (post : List (Job P)),
      h.JobService.JobRepo.Jobs = pre ++ j :: post → (∀ x ∈ pre, x.ID ≠ id) → j.ID = id →
      h.Get id = (h, { status := 200, body := .job j })) ∧
    (h.Get id).1 = h := by
  refine ⟨?_, ?_, ?_, ?_⟩
  · intro hid
    simp [JobREST.Get, hid, StatusBadRequest]
  · intro hid hnone
    have hg := getLoop_none id _ hnone
    refine ⟨?_, hg⟩
    simp only [JobREST.Get, if_neg hid, JobService.Get, InMemoryJobRepository.Get, hg]
    rfl
  · intro hid pre j post hl hpre hj
    have hg : getLoop id h.JobService.JobRepo.Jobs = .ok j := by
      rw [hl]
      exact getLoop_first id j post pre hpre hj
    simp only [JobREST.Get, if_neg hid, JobService.Get, InMemoryJobRepository.Get, hg]
    rfl
  · unfold JobREST.Get
    split
    · rfl
    · simp only [JobService.Get, InMemoryJobRepository.Get]
      split <;> rfl

theorem handler_Get_responses_witness :
    (⟨⟨⟨[⟨"0", "a"⟩, ⟨"1", "b"⟩]⟩⟩⟩ : JobREST String).Get ""
      = (⟨⟨⟨[⟨"0", "a"⟩, ⟨"1", "b"⟩]⟩⟩⟩, { status := 400, body := .errorMap "no id given" }) ∧
    (⟨⟨⟨[⟨"0", "a"⟩, ⟨"1", "b"⟩]⟩⟩⟩ : JobREST String).Get "5"
      = (⟨⟨⟨[⟨"0", "a"⟩, ⟨"1", "b"⟩]⟩⟩⟩, { status := 404, body := .errorMap "Job not found" }) ∧
    (⟨⟨⟨[⟨"0", "a"⟩, ⟨"1", "b"⟩]⟩⟩⟩ : JobREST String).Get "1"
      = (⟨⟨⟨[⟨"0", "a"⟩, ⟨"1", "b"⟩]⟩⟩⟩, { status := 200, body := .job ⟨"1", "b"⟩ }) :=
  ⟨(handler_Get_responses ⟨⟨⟨[⟨"0", "a"⟩, ⟨"1", "b"⟩]⟩⟩⟩ "").1 rfl,
    ((handler_Get_responses ⟨⟨⟨[⟨"0", "a"⟩, ⟨"1", "b"⟩]⟩⟩⟩ "5").2.1 (by decide) (by decide)).1,
    (handler_Get_responses ⟨⟨⟨[⟨"0", "a"⟩, ⟨"1", "b"⟩]⟩⟩⟩ "1").2.2.1 (by decide)
      [⟨"0", "a"⟩] ⟨"1", "b"⟩ [] rfl (by decide) rfl⟩

/-- C10: `Update` inspects only the first stored element. On the empty store
it fails with the not-found error. On a non-empty store it returns success and
the store can differ from the original at index 0 only: when the first
entry's ID equals `id` that entry becomes `job` with ID `id`, otherwise the
store is entirely unchanged. -/
theorem Update_inspects_first_only {P : Type} (r : InMemoryJobRepository P) (id : String)
    (job : Job P) :
    (r.Jobs = [] → r.Update id job = (r, .error errJobNotFound)) ∧
    (∀ (j : Job P) (rest : List (Job P)), r.Jobs = j :: rest →
      (r.Update id job).2 = .ok () ∧
      (r.Update id job).1.Jobs.length = r.Jobs.length ∧
      (∀ k, 0 < k → (r.Update id job).1.Jobs[k]? = r.Jobs[k]?) ∧
      (j.ID = id →
        (r.Update id job).1.Jobs = { ID := id, payload := job.payload } :: rest) ∧
      (j.ID ≠ id → (r.Update id job).1 = r)) := by
  refine ⟨Update_nil r id job, ?_⟩
  intro j rest hr
  have hu := Update_cons r id job j rest hr
  refine ⟨by rw [hu], length_Update r id job, ?_, ?_, ?_⟩
  · intro k hk
    obtain ⟨k, rfl⟩ : ∃ m, k = m + 1 := ⟨k - 1, by omega⟩
    rw [hu, hr]
    by_cases h : j.ID = id <;> simp [h]
  · intro h
    rw [hu]
    simp [h]
  · intro h
    rw [hu]
    cases r with
    | mk jobs =>
      simp only at hr
      simp [h, hr]

theorem Update_inspects_first_only_witness :
    (⟨[]⟩ : InMemoryJobRepository String).Update "0" ⟨"", "c"⟩
      = (⟨[]⟩, .error errJobNotFound) ∧
    ((⟨[⟨"0", "a"⟩, ⟨"1", "b"⟩]⟩ : InMemoryJobRepository String).Update "0" ⟨"9", "c"⟩).1.Jobs
      = [⟨"0", "c"⟩, ⟨"1", "b"⟩] ∧
    ((⟨[⟨"0", "a"⟩, ⟨"1", "b"⟩]⟩ : InMemoryJobRepository String).Update "1" ⟨"9", "c"⟩).1
      = ⟨[⟨"0", "a"⟩, ⟨"1", "b"⟩]⟩ :=
  ⟨(Update_inspects_first_only ⟨[]⟩ "0" ⟨"", "c"⟩).1 rfl,
    ((Update_inspects_first_only ⟨[⟨"0", "a"⟩, ⟨"1", "b"⟩]⟩ "0" ⟨"9", "c"⟩).2
      ⟨"0", "a"⟩ [⟨"1", "b"⟩] rfl).2.2.2.1 rfl,
    ((Update_inspects_first_only ⟨[⟨"0", "a"⟩, ⟨"1", "b"⟩]⟩ "1" ⟨"9", "c"⟩).2
      ⟨"0", "a"⟩ [⟨"1", "b"⟩] rfl).2.2.2.2 (by decide)⟩

end SimpleRest
